import Mathlib

/-!
Verification of the order-book reconstruction and feature-pipeline toolkit.

The development shallowly embeds the program's data model and operations:

* `Order`, `PriceLevel`, `Book` and `Book.apply` / `Book.bbo` embed the
  order-book engine of `OrderBook.py`.  The Python `dict[OrderId, Order]`
  is embedded as an insertion-ordered association list with unique keys,
  matching CPython dict semantics (iteration in insertion order, value
  replacement keeps the key's position).  Python `assert` failures and the
  uncaught `KeyError` are embedded as distinct `ApplyError` values carried
  by `ApplyResult.fail` together with the book state at the raise site
  (no mutation precedes any raise site in the source).
* Column bookkeeping of `features.py` (`build_features`) is embedded as
  list-of-name computations.
* The target computation of `prep_for_prediction`, the aggregation of
  `merge_bbo`, and the arity of the `get_data` → `prepare_symbol` call are
  embedded from `helpers.py`.  DataFrame columns become Lean lists; the
  float prices produced by dividing by the fixed price scale become `ℚ`.
* `distance_correlation` is embedded over `ℝ` (the floating-point sqrt and
  division become real sqrt and division).
-/

/-! ## Order book engine (`OrderBook.py`) -/

/-- `UNDEF_PRICE` from `databento_dbn`: the vendor's undefined-price
sentinel, `INT64_MAX`. -/
def UNDEF_PRICE : ℤ := 9223372036854775807

/-- `FIXED_PRICE_SCALE` from `databento_dbn`: the vendor's fixed-point
price scale (prices are integers in units of 1e-9). -/
def FIXED_PRICE_SCALE : ℤ := 1000000000

/-- `Order` of `OrderBook.py`: one resting order. -/
structure Order where
  side : String
  price : ℤ
  size : ℤ
  ts_event : ℤ
deriving DecidableEq

/-- `PriceLevel` of `OrderBook.py`: the derived best-price view of one side. -/
structure PriceLevel where
  price : Option ℤ := none
  size : ℤ := 0
  count : ℕ := 0
  total_size : ℤ := 0
deriving DecidableEq

/-- `Book` of `OrderBook.py`.  `orders` embeds the Python
`dict[OrderId, Order]` as an insertion-ordered association list. -/
structure Book where
  orders : List (ℕ × Order)
  price_as_float : Bool := false
deriving DecidableEq

/-- One row of the event feed, as destructured at the top of `Book.apply`. -/
structure Row where
  action : String
  ts_event : ℤ
  side : String
  order_id : ℕ
  price : ℤ
  size : ℤ
deriving DecidableEq

/-- Python `d[k]` lookup (as an option): the value at key `k`. -/
def dictGet? (l : List (ℕ × Order)) (k : ℕ) : Option Order :=
  (l.find? (fun e => e.1 == k)).map (·.2)

/-- Python `d[k] = v`: replace in place when the key is present (CPython
keeps the key's insertion position), append otherwise. -/
def dictSet (l : List (ℕ × Order)) (k : ℕ) (v : Order) : List (ℕ × Order) :=
  if (l.find? (fun e => e.1 == k)).isSome then
    l.map (fun e => if e.1 == k then (k, v) else e)
  else l ++ [(k, v)]

/-- Python `d.pop(k)`: drop the entry with key `k`. -/
def dictRemove (l : List (ℕ × Order)) (k : ℕ) : List (ℕ × Order) :=
  l.filter (fun e => e.1 != k)

/-- The raise sites of `Book.apply`: the two `assert` statements, the
`assert` guarding a cancel, and the `KeyError` of a modify on an
unknown order id. -/
inductive ApplyError where
  | invalidSide
  | undefPrice
  | cancelOversize
  | modifyUnknown
deriving DecidableEq

/-- Outcome of `Book.apply`: the new book, or the error raised together
with the book state at the raise site (in the source no mutation happens
before any raise site, so that state is the input book). -/
inductive ApplyResult where
  | ok (b : Book)
  | fail (e : ApplyError) (bookAtRaise : Book)
deriving DecidableEq

/-- `Book.apply` of `OrderBook.py`, translated branch for branch. -/
def Book.apply (b : Book) (e : Row) : ApplyResult :=
  if e.action = "T" ∨ e.action = "F" then .ok b
  else if e.action = "R" then .ok { b with orders := [] }
  else if ¬(e.side = "A" ∨ e.side = "B") then .fail .invalidSide b
  else if e.price = UNDEF_PRICE then .fail .undefPrice b
  else if e.action = "A" then
    .ok { b with orders := dictSet b.orders e.order_id ⟨e.side, e.price, e.size, e.ts_event⟩ }
  else if e.action = "C" then
    match dictGet? b.orders e.order_id with
    | none => .ok b
    | some o =>
      if o.size ≥ e.size then
        if o.size - e.size = 0 then .ok { b with orders := dictRemove b.orders e.order_id }
        else .ok { b with orders := dictSet b.orders e.order_id { o with size := o.size - e.size } }
      else .fail .cancelOversize b
  else if e.action = "M" then
    match dictGet? b.orders e.order_id with
    | none => .fail .modifyUnknown b
    | some o =>
      let ts := if o.price ≠ e.price ∨ o.size < e.size then e.ts_event else o.ts_event
      .ok { b with orders := dictSet b.orders e.order_id ⟨o.side, e.price, e.size, ts⟩ }
  else .ok b

/-- The dict's values in iteration (insertion) order, `self.orders.values()`. -/
def Book.values (b : Book) : List Order := b.orders.map (·.2)

/-- The ask-side update of one loop iteration of `Book.bbo`. -/
def stepAsk (lvl : PriceLevel) (o : Order) : PriceLevel :=
  match lvl.price with
  | none => ⟨some o.price, o.size, 1, 0⟩
  | some bp =>
    if bp > o.price then ⟨some o.price, o.size, 1, 0⟩
    else if bp = o.price then { lvl with size := lvl.size + o.size, count := lvl.count + 1 }
    else lvl

/-- The bid-side update of one loop iteration of `Book.bbo`. -/
def stepBid (lvl : PriceLevel) (o : Order) : PriceLevel :=
  match lvl.price with
  | none => ⟨some o.price, o.size, 1, 0⟩
  | some bp =>
    if bp < o.price then ⟨some o.price, o.size, 1, 0⟩
    else if bp = o.price then { lvl with size := lvl.size + o.size, count := lvl.count + 1 }
    else lvl

/-- The loop state of `Book.bbo`: the two levels being built and the two
running side totals. -/
structure BboState where
  ask : PriceLevel
  bid : PriceLevel
  totalAsk : ℤ
  totalBid : ℤ
deriving DecidableEq

/-- One iteration of the loop of `Book.bbo`. -/
def bboStep (s : BboState) (o : Order) : BboState :=
  if o.side = "A" then { s with ask := stepAsk s.ask o, totalAsk := s.totalAsk + o.size }
  else if o.side = "B" then { s with bid := stepBid s.bid o, totalBid := s.totalBid + o.size }
  else s

/-- `Book.bbo` of `OrderBook.py`: returns `(best_bid, best_ask)`. -/
def Book.bbo (b : Book) : PriceLevel × PriceLevel :=
  let s := b.values.foldl bboStep ⟨⟨none, 0, 0, 0⟩, ⟨none, 0, 0, 0⟩, 0, 0⟩
  ({ s.bid with total_size := s.totalBid }, { s.ask with total_size := s.totalAsk })

/-- The orders of a list at exactly price `m`. -/
def atPrice (l : List Order) (m : ℤ) : List Order := l.filter (fun o => o.price == m)

/-- Total size of a list of orders. -/
def sizeSum (l : List Order) : ℤ := (l.map (·.size)).sum

/-- The ask orders of a list. -/
def asksOf (l : List Order) : List Order := l.filter (fun o => o.side == "A")

/-- The bid orders of a list. -/
def bidsOf (l : List Order) : List Order := l.filter (fun o => o.side == "B")

/-! ## Feature column bookkeeping (`features.py`) -/

/-- `feature_cols` of `build_features` in `features.py`. -/
def feature_cols : List String :=
  ["log_return", "rolling_volume_imbalance", "rolling_weighted_mid_price", "rolling_volatility"]

/-- The rolling statistics the loop of `build_features` appends per base
column, in loop order: the nine descriptive statistics and the rolling
correlation. -/
def rolling_stats : List String :=
  ["mean", "std", "sum", "max", "min", "quantile_25", "quantile_75", "skew", "kurtosis", "corr"]

/-- The statistic column names one iteration of the loop of
`build_features` appends for base column `c`. -/
def statCols (c : String) (lookback : ℕ) : List String :=
  rolling_stats.map (fun s => c ++ "_" ++ s ++ "_" ++ toString lookback)

/-- All derived statistic column names `build_features` appends. -/
def derivedStatCols (lookback : ℕ) : List String :=
  feature_cols.flatMap (fun c => statCols c lookback)

/-- The column list of the frame `build_features` returns, given the input
frame's columns (the four base derived columns assumed not already
present): the loop appends its statistic columns after the four base
derived columns. -/
def build_features_cols (cols : List String) (lookback : ℕ) : List String :=
  (cols ++ feature_cols) ++ derivedStatCols lookback

/-! ## `prep_for_prediction` (`helpers.py`) -/

/-- Tail recursion of `diff1`: one-step backward differences of
`prev :: l`. -/
def diffAux (prev : ℚ) : List ℚ → List (Option ℚ)
  | [] => []
  | y :: rest => some (y - prev) :: diffAux y rest

/-- Polars `Expr.diff()`: element `i` is `l[i] - l[i-1]`, null at `i = 0`. -/
def diff1 : List ℚ → List (Option ℚ)
  | [] => []
  | x :: rest => none :: diffAux x rest

/-- Polars `Expr.shift(-n)`: drop the first `n` elements and pad the end
with nulls, keeping the length. -/
def shiftNeg (n : ℕ) (l : List (Option ℚ)) : List (Option ℚ) :=
  l.drop n ++ List.replicate (min n l.length) none

/-- Python slice `l[: -n]`: all but the last `n` elements — except that
`n = 0` gives `l[:0] = []`. -/
def sliceDropLast (l : List (Option ℚ)) (n : ℕ) : List (Option ℚ) :=
  if n = 0 then [] else l.take (l.length - n)

/-- The `target` column of the frame `prep_for_prediction` returns, as a
function of the `mid_price` column:
`pl.col("mid_price").diff().shift(-offset)` followed by the `[: -offset]`
truncation of the frame. -/
def prep_target (mid : List ℚ) (offset : ℕ) : List (Option ℚ) :=
  sliceDropLast (shiftNeg offset (diff1 mid)) offset

/-- `mid_price` of `features.py` applied columnwise. -/
def mid_price_col (ask bid : List ℚ) : List ℚ :=
  List.zipWith (fun a b => (a + b) / 2) ask bid

/-- `feature_cols` of `prep_for_prediction` in `helpers.py`. -/
def prep_feature_cols : List String := ["volume_imbalance", "weighted_mid_price", "spread"]

/-- The columns of the merged BBO frame `prep_for_prediction` receives
(the output of `merge_bbo`). -/
def mergedCols : List String :=
  ["ts_event", "bid_px_00", "bid_ct_00", "best_bid_total",
   "ask_px_00", "ask_ct_00", "best_ask_total"]

/-- The column list of the frame `prep_for_prediction` returns: the four
derived quote features and the three rolling means are added, `ts_event`
is dropped, and `target` is added last. -/
def prep_for_prediction_cols (cols : List String) : List String :=
  ((cols ++ ["spread", "mid_price", "weighted_mid_price", "volume_imbalance"]
      ++ prep_feature_cols.map (fun c => "rolling_" ++ c)).erase "ts_event") ++ ["target"]

/-! ## `merge_bbo` (`helpers.py`) -/

/-- One BBO snapshot record of `build_book_from_mbo`: timestamp (embedded
in microseconds, the polars `Datetime` unit produced by the preparation's
cast), raw fixed-point price, best-level size, and side total. -/
structure Snap where
  ts : ℤ
  price : ℤ
  size : ℤ
  total : ℤ
deriving DecidableEq

/-- One aggregated row of a side after the group-by of `merge_bbo`. -/
structure AggRow where
  ts : ℤ
  px : ℚ
  ct : ℤ
  total : ℤ
deriving DecidableEq

/-- One row of the merged frame `merge_bbo` returns. -/
structure MergedRow where
  ts : ℤ
  bid_px : ℚ
  bid_ct : ℤ
  bid_total : ℤ
  ask_px : ℚ
  ask_ct : ℤ
  ask_total : ℤ
deriving DecidableEq

/-- `dt.total_milliseconds` / `dt.total_seconds` on a microsecond
timestamp: the bucket key of `merge_bbo` for the chosen unit. -/
def bucketTs (unit : String) (ts : ℤ) : ℤ :=
  if unit = "ms" then ts / 1000 else ts / 1000000

/-- The distinct bucket keys of a list, first occurrence first (polars
leaves group order unspecified; the embedding fixes first-appearance
order, which the claims do not depend on). -/
def uniqueKeys (l : List ℤ) : List ℤ :=
  l.foldl (fun ks t => if t ∈ ks then ks else ks ++ [t]) []

/-- One side's rescale-and-aggregate of `merge_bbo`: prices divided by
`FIXED_PRICE_SCALE`, then per bucket the mean price, summed size and
last total. -/
def groupAgg (unit : String) (snaps : List Snap) : List AggRow :=
  (uniqueKeys (snaps.map (fun s => bucketTs unit s.ts))).map (fun t =>
    let rows := snaps.filter (fun s => bucketTs unit s.ts == t)
    { ts := t
      px := ((rows.map (fun s => (s.price : ℚ) / (FIXED_PRICE_SCALE : ℚ))).sum) / (rows.length : ℚ)
      ct := (rows.map (·.size)).sum
      total := (rows.map (·.total)).getLastD 0 })

/-- `merge_bbo` of `helpers.py`: aggregate each side, then inner-join on
the bucketed timestamp.  The final `forward_fill` is the identity here
because no column of the inner join is null in this embedding. -/
def merge_bbo (bids asks : List Snap) (unit : String) : List MergedRow :=
  let gb := groupAgg unit bids
  let ga := groupAgg unit asks
  gb.filterMap (fun rb =>
    (ga.find? (fun ra => ra.ts == rb.ts)).map (fun ra =>
      ⟨rb.ts, rb.px, rb.ct, rb.total, ra.px, ra.ct, ra.total⟩))

/-- The two best-bid snapshots of the claim's example — raw fixed-point
prices 100 and 102, sizes 5 and 5, half a second apart so both fall in
second bucket 0 — plus side totals 5 and 10. -/
def exBids : List Snap := [⟨0, 100, 5, 5⟩, ⟨500000, 102, 5, 10⟩]

/-- An ask snapshot in the same second bucket, so the inner join keeps
the bucket. -/
def exAsks : List Snap := [⟨200000, 200, 3, 3⟩]

/-! ## `get_data` / `prepare_symbol` (`helpers.py`) -/

/-- The fields of one raw MBO row that `prepare_symbol` filters on
(`symbol`, `size`, `action`, and the calendar date of `ts_event`). -/
structure MboRow where
  symbol : String
  action : String
  size : ℤ
  date : String
deriving DecidableEq

/-- The filtering pipeline of `prepare_symbol(data, date, symbol)`:
keep the requested symbol with non-zero size, drop Trade/Fill rows, keep
the requested calendar date. -/
def prepare_symbol (data : List MboRow) (date : String) (symbol : String) : List MboRow :=
  ((data.filter (fun r => r.symbol == symbol && r.size != 0)).filter
      (fun r => r.action != "T" && r.action != "F")).filter (fun r => r.date == date)

/-- A Python `TypeError`. -/
inductive PyError where
  | typeError
deriving DecidableEq

/-- `prepare_symbol` declares three parameters: `data`, `date`, `symbol`. -/
def prepare_symbol_params : ℕ := 3

/-- `get_data` calls `prepare_symbol(data, start_date, end_date, symbol)`
with four positional arguments. -/
def get_data_args : ℕ := 4

/-- `get_data` of `helpers.py`: the parquet load is modelled as already
done (its result is the `parquet` argument); the call to `prepare_symbol`
follows Python's calling convention — when the number of positional
arguments differs from the number of declared parameters, a `TypeError`
is raised before the callee's body runs. -/
def get_data (parquet : List MboRow) (symbol start_date end_date : String) :
    Except PyError (List MboRow) :=
  if get_data_args = prepare_symbol_params then
    Except.ok (prepare_symbol parquet start_date symbol)
  else Except.error PyError.typeError

/-! ## `distance_correlation` (`helpers.py`) -/

/-- `squareform(pdist(x))` on a column vector: the pairwise Euclidean
distance matrix `|x i - x j|`. -/
def distMatrix {n : ℕ} (x : Fin n → ℝ) : Fin n → Fin n → ℝ :=
  fun i j => |x i - x j|

/-- `a.mean(axis=0)[None, :]`: the column means. -/
noncomputable def colMean {n : ℕ} (M : Fin n → Fin n → ℝ) (j : Fin n) : ℝ :=
  (∑ i, M i j) / n

/-- `a.mean(axis=1)[:, None]`: the row means. -/
noncomputable def rowMean {n : ℕ} (M : Fin n → Fin n → ℝ) (i : Fin n) : ℝ :=
  (∑ j, M i j) / n

/-- `a.mean()`: the grand mean. -/
noncomputable def grandMean {n : ℕ} (M : Fin n → Fin n → ℝ) : ℝ :=
  (∑ i, ∑ j, M i j) / (n * n)

/-- The doubly-centered matrix `A = a - a.mean(axis=0) - a.mean(axis=1)
+ a.mean()`. -/
noncomputable def centered {n : ℕ} (M : Fin n → Fin n → ℝ) : Fin n → Fin n → ℝ :=
  fun i j => M i j - colMean M j - rowMean M i + grandMean M

/-- `(A * B).sum() / (x.shape[0] ** 2)`. -/
noncomputable def dCov {n : ℕ} (A B : Fin n → Fin n → ℝ) : ℝ :=
  (∑ i, ∑ j, A i j * B i j) / (n * n)

/-- `distance_correlation` of `helpers.py`, over the reals. -/
noncomputable def distance_correlation {n : ℕ} (x y : Fin n → ℝ) : ℝ :=
  Real.sqrt (dCov (centered (distMatrix x)) (centered (distMatrix y))) /
    Real.sqrt (Real.sqrt (dCov (centered (distMatrix x)) (centered (distMatrix x))) *
      Real.sqrt (dCov (centered (distMatrix y)) (centered (distMatrix y))))

/-- The concrete non-constant vector used as the witness input. -/
noncomputable def xWit : Fin 2 → ℝ := fun i => if i = 0 then 0 else 1


/-- Invariant of the ask-side level the loop of `Book.bbo` has built
after processing the ask orders `seen`: an empty history means the
untouched initial level, otherwise the level holds the minimum price
seen, the size and count accumulated over the orders at exactly that
price, and a still-untouched `total_size` field. -/
@[reducible] def AskInv (seen : List Order) (lvl : PriceLevel) : Prop :=
  (lvl.price = none → lvl = PriceLevel.mk none 0 0 0 ∧ seen = []) ∧
  ∀ m, lvl.price = some m →
    (∃ o ∈ seen, o.price = m) ∧ (∀ o ∈ seen, m ≤ o.price) ∧
    lvl.size = sizeSum (atPrice seen m) ∧
    lvl.count = (atPrice seen m).length ∧
    lvl.total_size = 0

/-- Invariant of the bid-side level: as `AskInv` with the maximum price. -/
@[reducible] def BidInv (seen : List Order) (lvl : PriceLevel) : Prop :=
  (lvl.price = none → lvl = PriceLevel.mk none 0 0 0 ∧ seen = []) ∧
  ∀ m, lvl.price = some m →
    (∃ o ∈ seen, o.price = m) ∧ (∀ o ∈ seen, o.price ≤ m) ∧
    lvl.size = sizeSum (atPrice seen m) ∧
    lvl.count = (atPrice seen m).length ∧
    lvl.total_size = 0

/-! ## Theorems: order-book event application -/

theorem apply_guard_eq (b : Book) (e : Row)
    (hTF : ¬(e.action = "T" ∨ e.action = "F")) (hR : e.action ≠ "R")
    (hS : e.side = "A" ∨ e.side = "B") (hP : e.price ≠ UNDEF_PRICE) :
    Book.apply b e =
      (if e.action = "A" then
        .ok { b with orders := dictSet b.orders e.order_id ⟨e.side, e.price, e.size, e.ts_event⟩ }
      else if e.action = "C" then
        match dictGet? b.orders e.order_id with
        | none => .ok b
        | some o =>
          if o.size ≥ e.size then
            if o.size - e.size = 0 then .ok { b with orders := dictRemove b.orders e.order_id }
            else .ok { b with orders := dictSet b.orders e.order_id { o with size := o.size - e.size } }
          else .fail .cancelOversize b
      else if e.action = "M" then
        match dictGet? b.orders e.order_id with
        | none => .fail .modifyUnknown b
        | some o =>
          let ts := if o.price ≠ e.price ∨ o.size < e.size then e.ts_event else o.ts_event
          .ok { b with orders := dictSet b.orders e.order_id ⟨o.side, e.price, e.size, ts⟩ }
      else .ok b) := by
  unfold Book.apply
  rw [if_neg hTF, if_neg hR, if_neg (not_not_intro hS), if_neg hP]

theorem apply_cancel_none (b : Book) (e : Row)
    (hA : e.action = "C") (hS : e.side = "A" ∨ e.side = "B") (hP : e.price ≠ UNDEF_PRICE)
    (ho : dictGet? b.orders e.order_id = none) :
    Book.apply b e = .ok b := by
  have hTF : ¬(e.action = "T" ∨ e.action = "F") := by rw [hA]; decide
  have hR : e.action ≠ "R" := by rw [hA]; decide
  have hAdd : e.action ≠ "A" := by rw [hA]; decide
  rw [apply_guard_eq b e hTF hR hS hP, if_neg hAdd, if_pos hA, ho]

theorem apply_cancel_some (b : Book) (e : Row) (o : Order)
    (hA : e.action = "C") (hS : e.side = "A" ∨ e.side = "B") (hP : e.price ≠ UNDEF_PRICE)
    (ho : dictGet? b.orders e.order_id = some o) :
    Book.apply b e =
      (if o.size ≥ e.size then
        if o.size - e.size = 0 then .ok { b with orders := dictRemove b.orders e.order_id }
        else .ok { b with orders := dictSet b.orders e.order_id { o with size := o.size - e.size } }
      else .fail .cancelOversize b) := by
  have hTF : ¬(e.action = "T" ∨ e.action = "F") := by rw [hA]; decide
  have hR : e.action ≠ "R" := by rw [hA]; decide
  have hAdd : e.action ≠ "A" := by rw [hA]; decide
  rw [apply_guard_eq b e hTF hR hS hP, if_neg hAdd, if_pos hA, ho]

theorem apply_modify_none (b : Book) (e : Row)
    (hA : e.action = "M") (hS : e.side = "A" ∨ e.side = "B") (hP : e.price ≠ UNDEF_PRICE)
    (ho : dictGet? b.orders e.order_id = none) :
    Book.apply b e = .fail .modifyUnknown b := by
  have hTF : ¬(e.action = "T" ∨ e.action = "F") := by rw [hA]; decide
  have hR : e.action ≠ "R" := by rw [hA]; decide
  have hAdd : e.action ≠ "A" := by rw [hA]; decide
  have hC : e.action ≠ "C" := by rw [hA]; decide
  rw [apply_guard_eq b e hTF hR hS hP, if_neg hAdd, if_neg hC, if_pos hA, ho]

theorem apply_modify_some (b : Book) (e : Row) (o : Order)
    (hA : e.action = "M") (hS : e.side = "A" ∨ e.side = "B") (hP : e.price ≠ UNDEF_PRICE)
    (ho : dictGet? b.orders e.order_id = some o) :
    Book.apply b e = .ok { b with orders := dictSet b.orders e.order_id (Order.mk o.side e.price e.size (if o.price ≠ e.price ∨ o.size < e.size then e.ts_event else o.ts_event)) } := by
  have hTF : ¬(e.action = "T" ∨ e.action = "F") := by rw [hA]; decide
  have hR : e.action ≠ "R" := by rw [hA]; decide
  have hAdd : e.action ≠ "A" := by rw [hA]; decide
  have hC : e.action ≠ "C" := by rw [hA]; decide
  rw [apply_guard_eq b e hTF hR hS hP, if_neg hAdd, if_neg hC, if_pos hA, ho]

/-- C2: for a Cancel event with a valid side and defined price — an
unknown order id is a silent no-op; a resting size strictly greater than
the cancel size leaves the order with its size reduced by exactly the
cancel size and its other fields unchanged; a resting size equal to the
cancel size removes the order; a resting size strictly smaller fails
with the fatal `assert existing_order.size >= size`. -/
theorem apply_cancel_spec (b : Book) (e : Row)
    (hA : e.action = "C") (hS : e.side = "A" ∨ e.side = "B") (hP : e.price ≠ UNDEF_PRICE) :
    (dictGet? b.orders e.order_id = none → Book.apply b e = .ok b) ∧
    (∀ o, dictGet? b.orders e.order_id = some o →
      (e.size < o.size → Book.apply b e =
        .ok { b with orders := dictSet b.orders e.order_id { o with size := o.size - e.size } }) ∧
      (o.size = e.size → Book.apply b e = .ok { b with orders := dictRemove b.orders e.order_id }) ∧
      (o.size < e.size → Book.apply b e = .fail .cancelOversize b)) := by
  refine ⟨fun h => apply_cancel_none b e hA hS hP h, fun o ho => ?_⟩
  rw [apply_cancel_some b e o hA hS hP ho]
  refine ⟨fun hlt => ?_, fun heq => ?_, fun hgt => ?_⟩
  · rw [if_pos (by omega), if_neg (by omega)]
  · rw [if_pos (by omega), if_pos (by omega)]
  · rw [if_neg (by omega)]

/-- Closed witness for `apply_cancel_spec`: a book with one resting bid
of size 10, cancelled by 4: the order stays with size 6. -/
theorem apply_cancel_spec_witness :
    ((Row.mk "C" 9 "B" 1 100 4).action = "C" ∧
      ((Row.mk "C" 9 "B" 1 100 4).side = "A" ∨ (Row.mk "C" 9 "B" 1 100 4).side = "B") ∧
      (Row.mk "C" 9 "B" 1 100 4).price ≠ UNDEF_PRICE) ∧
    (dictGet? (Book.mk [(1, Order.mk "B" 100 10 0)] false).orders 1 = some (Order.mk "B" 100 10 0) ∧
      Book.apply (Book.mk [(1, Order.mk "B" 100 10 0)] false) (Row.mk "C" 9 "B" 1 100 4) =
        .ok (Book.mk [(1, Order.mk "B" 100 6 0)] false)) := by
  refine ⟨⟨rfl, Or.inr rfl, by decide⟩, by decide, ?_⟩
  have h := apply_cancel_spec (Book.mk [(1, Order.mk "B" 100 10 0)] false)
    (Row.mk "C" 9 "B" 1 100 4) rfl (Or.inr rfl) (by decide)
  have h2 := (h.2 (Order.mk "B" 100 10 0) (by decide)).1 (by decide)
  rw [h2]
  rfl

/-- C3: for a Modify event on a resting order with a valid side and
defined price: the order's priority timestamp becomes the event's
timestamp exactly when the price changes or the size strictly increases,
otherwise it is kept; the price and size are then overwritten with the
event's, and the side is kept. -/
theorem apply_modify_spec (b : Book) (e : Row) (o : Order)
    (hA : e.action = "M") (hS : e.side = "A" ∨ e.side = "B") (hP : e.price ≠ UNDEF_PRICE)
    (ho : dictGet? b.orders e.order_id = some o) :
    Book.apply b e = .ok { b with orders := dictSet b.orders e.order_id (Order.mk o.side e.price e.size (if o.price ≠ e.price ∨ o.size < e.size then e.ts_event else o.ts_event)) } :=
  apply_modify_some b e o hA hS hP ho

/-- Closed witness for `apply_modify_spec`: the order at price 100 size 5
modified to price 101 size 5 loses priority (timestamp becomes 9), and
separately the same order modified to price 100 size 3 keeps timestamp 0. -/
theorem apply_modify_spec_witness :
    ((Row.mk "M" 9 "B" 1 101 5).action = "M" ∧
      ((Row.mk "M" 9 "B" 1 101 5).side = "A" ∨ (Row.mk "M" 9 "B" 1 101 5).side = "B") ∧
      (Row.mk "M" 9 "B" 1 101 5).price ≠ UNDEF_PRICE ∧
      dictGet? (Book.mk [(1, Order.mk "B" 100 5 0)] false).orders 1 = some (Order.mk "B" 100 5 0)) ∧
    Book.apply (Book.mk [(1, Order.mk "B" 100 5 0)] false) (Row.mk "M" 9 "B" 1 101 5) =
      .ok (Book.mk [(1, Order.mk "B" 101 5 9)] false) ∧
    Book.apply (Book.mk [(1, Order.mk "B" 100 5 0)] false) (Row.mk "M" 9 "B" 1 100 3) =
      .ok (Book.mk [(1, Order.mk "B" 100 3 0)] false) := by
  refine ⟨⟨rfl, Or.inr rfl, by decide, by decide⟩, ?_, ?_⟩
  · have h := apply_modify_spec (Book.mk [(1, Order.mk "B" 100 5 0)] false)
      (Row.mk "M" 9 "B" 1 101 5) (Order.mk "B" 100 5 0) rfl (Or.inr rfl) (by decide) (by decide)
    rw [h]
    decide
  · have h := apply_modify_spec (Book.mk [(1, Order.mk "B" 100 5 0)] false)
      (Row.mk "M" 9 "B" 1 100 3) (Order.mk "B" 100 5 0) rfl (Or.inr rfl) (by decide) (by decide)
    rw [h]
    decide

/-- C10: a Modify event (valid side, defined price) whose order id is not
resting raises the uncaught `KeyError` of `self.orders[order_id]`, with
the book unchanged at the raise site — whereas the same event as a
Cancel is a silent no-op. -/
theorem apply_modify_missing (b : Book) (e : Row)
    (hA : e.action = "M") (hS : e.side = "A" ∨ e.side = "B") (hP : e.price ≠ UNDEF_PRICE)
    (ho : dictGet? b.orders e.order_id = none) :
    Book.apply b e = .fail .modifyUnknown b ∧
    Book.apply b { e with action := "C" } = .ok b := by
  refine ⟨apply_modify_none b e hA hS hP ho, ?_⟩
  exact apply_cancel_none b { e with action := "C" } rfl hS hP ho

/-- Closed witness for `apply_modify_missing`: order id 7 was never
added, so Modify fails with the book unchanged while Cancel is a no-op. -/
theorem apply_modify_missing_witness :
    ((Row.mk "M" 9 "B" 7 101 5).action = "M" ∧
      ((Row.mk "M" 9 "B" 7 101 5).side = "A" ∨ (Row.mk "M" 9 "B" 7 101 5).side = "B") ∧
      (Row.mk "M" 9 "B" 7 101 5).price ≠ UNDEF_PRICE ∧
      dictGet? (Book.mk [(1, Order.mk "B" 100 5 0)] false).orders 7 = none) ∧
    Book.apply (Book.mk [(1, Order.mk "B" 100 5 0)] false) (Row.mk "M" 9 "B" 7 101 5) =
      .fail .modifyUnknown (Book.mk [(1, Order.mk "B" 100 5 0)] false) ∧
    Book.apply (Book.mk [(1, Order.mk "B" 100 5 0)] false) (Row.mk "C" 9 "B" 7 101 5) =
      .ok (Book.mk [(1, Order.mk "B" 100 5 0)] false) := by
  have h := apply_modify_missing (Book.mk [(1, Order.mk "B" 100 5 0)] false)
    (Row.mk "M" 9 "B" 7 101 5) rfl (Or.inr rfl) (by decide) (by decide)
  exact ⟨⟨rfl, Or.inr rfl, by decide, by decide⟩, h.1, h.2⟩

/-- C7: for an Add, Cancel or Modify event, `Book.apply` fails on the
`assert side == "A" or side == "B"` when the side is invalid, and on
`assert price != UNDEF_PRICE` when the side is valid but the price is
the undefined-price sentinel; with a valid side and a defined price
neither assertion can fail; Trade, Fill and Clear events return before
either assertion runs and always succeed. -/
theorem apply_assert_spec (b : Book) (e : Row) :
    ((e.action = "A" ∨ e.action = "C" ∨ e.action = "M") →
      (¬(e.side = "A" ∨ e.side = "B") → Book.apply b e = .fail .invalidSide b) ∧
      ((e.side = "A" ∨ e.side = "B") → e.price = UNDEF_PRICE →
        Book.apply b e = .fail .undefPrice b) ∧
      ((e.side = "A" ∨ e.side = "B") → e.price ≠ UNDEF_PRICE → ∀ b',
        Book.apply b e ≠ .fail .invalidSide b' ∧ Book.apply b e ≠ .fail .undefPrice b')) ∧
    ((e.action = "T" ∨ e.action = "F" ∨ e.action = "R") → ∃ b', Book.apply b e = .ok b') := by
  constructor
  · intro hACM
    have hTF : ¬(e.action = "T" ∨ e.action = "F") := by
      rcases hACM with h | h | h <;> rw [h] <;> decide
    have hR : e.action ≠ "R" := by
      rcases hACM with h | h | h <;> rw [h] <;> decide
    refine ⟨fun hbad => ?_, fun hS hundef => ?_, fun hS hP b' => ?_⟩
    · unfold Book.apply
      rw [if_neg hTF, if_neg hR, if_pos hbad]
    · unfold Book.apply
      rw [if_neg hTF, if_neg hR, if_neg (not_not_intro hS), if_pos hundef]
    · rcases hACM with h | h | h
      · have hrw := apply_guard_eq b e hTF hR hS hP
        rw [if_pos h] at hrw
        rw [hrw]
        exact ⟨by simp, by simp⟩
      · cases hg : dictGet? b.orders e.order_id with
        | none =>
          rw [apply_cancel_none b e h hS hP hg]
          exact ⟨by simp, by simp⟩
        | some o =>
          rw [apply_cancel_some b e o h hS hP hg]
          by_cases h1 : o.size ≥ e.size
          · by_cases h2 : o.size - e.size = 0
            · rw [if_pos h1, if_pos h2]
              exact ⟨by simp, by simp⟩
            · rw [if_pos h1, if_neg h2]
              exact ⟨by simp, by simp⟩
          · rw [if_neg h1]
            exact ⟨by simp, by simp⟩
      · cases hg : dictGet? b.orders e.order_id with
        | none =>
          rw [apply_modify_none b e h hS hP hg]
          exact ⟨by simp, by simp⟩
        | some o =>
          rw [apply_modify_some b e o h hS hP hg]
          exact ⟨by simp, by simp⟩
  · intro hTFR
    rcases hTFR with h | h | h
    · exact ⟨b, by unfold Book.apply; rw [if_pos (Or.inl h)]⟩
    · exact ⟨b, by unfold Book.apply; rw [if_pos (Or.inr h)]⟩
    · refine ⟨{ b with orders := [] }, ?_⟩
      have hTF : ¬(e.action = "T" ∨ e.action = "F") := by rw [h]; decide
      unfold Book.apply
      rw [if_neg hTF, if_pos h]

/-! ## Theorems: BBO computation -/

theorem sizeSum_append (l1 l2 : List Order) : sizeSum (l1 ++ l2) = sizeSum l1 + sizeSum l2 := by
  simp [sizeSum]

theorem sizeSum_cons (o : Order) (l : List Order) : sizeSum (o :: l) = o.size + sizeSum l := by
  simp [sizeSum]

theorem atPrice_append (l1 l2 : List Order) (m : ℤ) :
    atPrice (l1 ++ l2) m = atPrice l1 m ++ atPrice l2 m := by
  simp [atPrice]

theorem atPrice_single_eq (o : Order) (m : ℤ) (h : o.price = m) : atPrice [o] m = [o] := by
  simp [atPrice, h]

theorem atPrice_single_ne (o : Order) (m : ℤ) (h : o.price ≠ m) : atPrice [o] m = [] := by
  simp [atPrice, h]

theorem atPrice_eq_nil (l : List Order) (m : ℤ) (h : ∀ o ∈ l, o.price ≠ m) :
    atPrice l m = [] := by
  simp only [atPrice, List.filter_eq_nil_iff]
  intro o ho
  simpa using h o ho

theorem stepAsk_none (lvl : PriceLevel) (o : Order) (hp : lvl.price = none) :
    stepAsk lvl o = PriceLevel.mk (some o.price) o.size 1 0 := by
  unfold stepAsk
  rw [hp]

theorem stepAsk_repl (lvl : PriceLevel) (o : Order) (bp : ℤ) (hp : lvl.price = some bp)
    (h1 : bp > o.price) : stepAsk lvl o = PriceLevel.mk (some o.price) o.size 1 0 := by
  unfold stepAsk
  rw [hp]
  simp [h1]

theorem stepAsk_acc (lvl : PriceLevel) (o : Order) (bp : ℤ) (hp : lvl.price = some bp)
    (h1 : ¬bp > o.price) (h2 : bp = o.price) :
    stepAsk lvl o = { lvl with size := lvl.size + o.size, count := lvl.count + 1 } := by
  unfold stepAsk
  rw [hp]
  simp [h1, h2]

theorem stepAsk_keep (lvl : PriceLevel) (o : Order) (bp : ℤ) (hp : lvl.price = some bp)
    (h1 : ¬bp > o.price) (h2 : bp ≠ o.price) : stepAsk lvl o = lvl := by
  unfold stepAsk
  rw [hp]
  simp [h1, h2]

theorem stepBid_none (lvl : PriceLevel) (o : Order) (hp : lvl.price = none) :
    stepBid lvl o = PriceLevel.mk (some o.price) o.size 1 0 := by
  unfold stepBid
  rw [hp]

theorem stepBid_repl (lvl : PriceLevel) (o : Order) (bp : ℤ) (hp : lvl.price = some bp)
    (h1 : bp < o.price) : stepBid lvl o = PriceLevel.mk (some o.price) o.size 1 0 := by
  unfold stepBid
  rw [hp]
  simp [h1]

theorem stepBid_acc (lvl : PriceLevel) (o : Order) (bp : ℤ) (hp : lvl.price = some bp)
    (h1 : ¬bp < o.price) (h2 : bp = o.price) :
    stepBid lvl o = { lvl with size := lvl.size + o.size, count := lvl.count + 1 } := by
  unfold stepBid
  rw [hp]
  simp [h1, h2]

theorem stepBid_keep (lvl : PriceLevel) (o : Order) (bp : ℤ) (hp : lvl.price = some bp)
    (h1 : ¬bp < o.price) (h2 : bp ≠ o.price) : stepBid lvl o = lvl := by
  unfold stepBid
  rw [hp]
  simp [h1, h2]

theorem askInv_nil : AskInv [] (PriceLevel.mk none 0 0 0) := by
  refine ⟨fun _ => ⟨rfl, rfl⟩, fun m hm => ?_⟩
  cases hm

theorem bidInv_nil : BidInv [] (PriceLevel.mk none 0 0 0) := by
  refine ⟨fun _ => ⟨rfl, rfl⟩, fun m hm => ?_⟩
  cases hm

theorem askInv_step (seen : List Order) (lvl : PriceLevel) (o : Order)
    (h : AskInv seen lvl) : AskInv (seen ++ [o]) (stepAsk lvl o) := by
  cases hp : lvl.price with
  | none =>
    obtain ⟨hl, hs⟩ := h.1 hp
    subst hs
    rw [stepAsk_none lvl o hp]
    refine ⟨fun hc => (by cases hc), fun m hm => ?_⟩
    have hmo : m = o.price := by
      cases hm
      rfl
    subst hmo
    refine ⟨⟨o, (by simp), rfl⟩, (by simp), ?_, ?_, rfl⟩
    · rw [show ([] ++ [o] : List Order) = [o] from by simp, atPrice_single_eq o o.price rfl]
      simp [sizeSum]
    · rw [show ([] ++ [o] : List Order) = [o] from by simp, atPrice_single_eq o o.price rfl]
      rfl
  | some bp =>
    obtain ⟨hmem, hmin, hsize, hcount, htot⟩ := h.2 bp hp
    by_cases h1 : bp > o.price
    · rw [stepAsk_repl lvl o bp hp h1]
      refine ⟨fun hc => (by cases hc), fun m hm => ?_⟩
      have hmo : m = o.price := by
        cases hm
        rfl
      subst hmo
      have hnone : atPrice seen o.price = [] := by
        refine atPrice_eq_nil seen o.price (fun o' ho' hc => ?_)
        have := hmin o' ho'
        omega
      refine ⟨⟨o, (by simp), rfl⟩, ?_, ?_, ?_, rfl⟩
      · intro o' ho'
        rcases List.mem_append.1 ho' with hin | hin
        · have := hmin o' hin
          omega
        · have he : o' = o := by simpa using hin
          subst he
          omega
      · rw [atPrice_append, hnone, atPrice_single_eq o o.price rfl]
        simp [sizeSum]
      · rw [atPrice_append, hnone, atPrice_single_eq o o.price rfl]
        rfl
    · by_cases h2 : bp = o.price
      · rw [stepAsk_acc lvl o bp hp h1 h2]
        refine ⟨fun hc => (by simp [hp] at hc), fun m hm => ?_⟩
        have hmo : m = bp := by
          simp only [hp] at hm
          cases hm
          rfl
        subst hmo
        refine ⟨⟨o, (by simp), h2.symm⟩, ?_, ?_, ?_, ?_⟩
        · intro o' ho'
          rcases List.mem_append.1 ho' with hin | hin
          · exact hmin o' hin
          · have he : o' = o := by simpa using hin
            subst he
            omega
        · rw [atPrice_append, atPrice_single_eq o m h2.symm, sizeSum_append]
          simp [sizeSum, hsize]
        · rw [atPrice_append, atPrice_single_eq o m h2.symm, List.length_append]
          simp [hcount]
        · exact htot
      · rw [stepAsk_keep lvl o bp hp h1 h2]
        refine ⟨fun hc => ?_, fun m hm => ?_⟩
        · rw [hp] at hc
          cases hc
        have hmo : m = bp := by
          rw [hp] at hm
          cases hm
          rfl
        subst hmo
        obtain ⟨ow, how, how2⟩ := hmem
        refine ⟨⟨ow, List.mem_append_left _ how, how2⟩, ?_, ?_, ?_, htot⟩
        · intro o' ho'
          rcases List.mem_append.1 ho' with hin | hin
          · exact hmin o' hin
          · have he : o' = o := by simpa using hin
            subst he
            omega
        · rw [atPrice_append, atPrice_single_ne o m (fun hc => h2 hc.symm)]
          simpa using hsize
        · rw [atPrice_append, atPrice_single_ne o m (fun hc => h2 hc.symm)]
          simpa using hcount

theorem bidInv_step (seen : List Order) (lvl : PriceLevel) (o : Order)
    (h : BidInv seen lvl) : BidInv (seen ++ [o]) (stepBid lvl o) := by
  cases hp : lvl.price with
  | none =>
    obtain ⟨hl, hs⟩ := h.1 hp
    subst hs
    rw [stepBid_none lvl o hp]
    refine ⟨fun hc => (by cases hc), fun m hm => ?_⟩
    have hmo : m = o.price := by
      cases hm
      rfl
    subst hmo
    refine ⟨⟨o, (by simp), rfl⟩, (by simp), ?_, ?_, rfl⟩
    · rw [show ([] ++ [o] : List Order) = [o] from by simp, atPrice_single_eq o o.price rfl]
      simp [sizeSum]
    · rw [show ([] ++ [o] : List Order) = [o] from by simp, atPrice_single_eq o o.price rfl]
      rfl
  | some bp =>
    obtain ⟨hmem, hmax, hsize, hcount, htot⟩ := h.2 bp hp
    by_cases h1 : bp < o.price
    · rw [stepBid_repl lvl o bp hp h1]
      refine ⟨fun hc => (by cases hc), fun m hm => ?_⟩
      have hmo : m = o.price := by
        cases hm
        rfl
      subst hmo
      have hnone : atPrice seen o.price = [] := by
        refine atPrice_eq_nil seen o.price (fun o' ho' hc => ?_)
        have := hmax o' ho'
        omega
      refine ⟨⟨o, (by simp), rfl⟩, ?_, ?_, ?_, rfl⟩
      · intro o' ho'
        rcases List.mem_append.1 ho' with hin | hin
        · have := hmax o' hin
          omega
        · have he : o' = o := by simpa using hin
          subst he
          omega
      · rw [atPrice_append, hnone, atPrice_single_eq o o.price rfl]
        simp [sizeSum]
      · rw [atPrice_append, hnone, atPrice_single_eq o o.price rfl]
        rfl
    · by_cases h2 : bp = o.price
      · rw [stepBid_acc lvl o bp hp h1 h2]
        refine ⟨fun hc => (by simp [hp] at hc), fun m hm => ?_⟩
        have hmo : m = bp := by
          simp only [hp] at hm
          cases hm
          rfl
        subst hmo
        refine ⟨⟨o, (by simp), h2.symm⟩, ?_, ?_, ?_, ?_⟩
        · intro o' ho'
          rcases List.mem_append.1 ho' with hin | hin
          · exact hmax o' hin
          · have he : o' = o := by simpa using hin
            subst he
            omega
        · rw [atPrice_append, atPrice_single_eq o m h2.symm, sizeSum_append]
          simp [sizeSum, hsize]
        · rw [atPrice_append, atPrice_single_eq o m h2.symm, List.length_append]
          simp [hcount]
        · exact htot
      · rw [stepBid_keep lvl o bp hp h1 h2]
        refine ⟨fun hc => ?_, fun m hm => ?_⟩
        · rw [hp] at hc
          cases hc
        have hmo : m = bp := by
          rw [hp] at hm
          cases hm
          rfl
        subst hmo
        obtain ⟨ow, how, how2⟩ := hmem
        refine ⟨⟨ow, List.mem_append_left _ how, how2⟩, ?_, ?_, ?_, htot⟩
        · intro o' ho'
          rcases List.mem_append.1 ho' with hin | hin
          · exact hmax o' hin
          · have he : o' = o := by simpa using hin
            subst he
            omega
        · rw [atPrice_append, atPrice_single_ne o m (fun hc => h2 hc.symm)]
          simpa using hsize
        · rw [atPrice_append, atPrice_single_ne o m (fun hc => h2 hc.symm)]
          simpa using hcount

theorem bbo_foldl_inv (l : List Order) : ∀ (s : BboState) (seenA seenB : List Order),
    AskInv seenA s.ask → BidInv seenB s.bid →
    AskInv (seenA ++ asksOf l) ((l.foldl bboStep s).ask) ∧
    BidInv (seenB ++ bidsOf l) ((l.foldl bboStep s).bid) ∧
    (l.foldl bboStep s).totalAsk = s.totalAsk + sizeSum (asksOf l) ∧
    (l.foldl bboStep s).totalBid = s.totalBid + sizeSum (bidsOf l) := by
  induction l with
  | nil =>
    intro s seenA seenB hA hB
    simpa [asksOf, bidsOf, sizeSum] using ⟨hA, hB⟩
  | cons o rest ih =>
    intro s seenA seenB hA hB
    rw [List.foldl_cons]
    by_cases hs : o.side = "A"
    · have hask : (bboStep s o).ask = stepAsk s.ask o := by simp [bboStep, hs]
      have hbid : (bboStep s o).bid = s.bid := by simp [bboStep, hs]
      have htA : (bboStep s o).totalAsk = s.totalAsk + o.size := by simp [bboStep, hs]
      have htB : (bboStep s o).totalBid = s.totalBid := by simp [bboStep, hs]
      have hasks : asksOf (o :: rest) = o :: asksOf rest := by simp [asksOf, hs]
      have hbids : bidsOf (o :: rest) = bidsOf rest := by simp [bidsOf, hs]
      obtain ⟨iA, iB, tA, tB⟩ := ih (bboStep s o) (seenA ++ [o]) seenB
        (by rw [hask]; exact askInv_step seenA s.ask o hA) (by rw [hbid]; exact hB)
      refine ⟨?_, ?_, ?_, ?_⟩
      · rw [hasks, show seenA ++ o :: asksOf rest = (seenA ++ [o]) ++ asksOf rest from by simp]
        exact iA
      · rw [hbids]
        exact iB
      · rw [hasks, sizeSum_cons, tA, htA]
        omega
      · rw [hbids, tB, htB]
    · by_cases hs2 : o.side = "B"
      · have hask : (bboStep s o).ask = s.ask := by simp [bboStep, hs, hs2]
        have hbid : (bboStep s o).bid = stepBid s.bid o := by simp [bboStep, hs, hs2]
        have htA : (bboStep s o).totalAsk = s.totalAsk := by simp [bboStep, hs, hs2]
        have htB : (bboStep s o).totalBid = s.totalBid + o.size := by simp [bboStep, hs, hs2]
        have hasks : asksOf (o :: rest) = asksOf rest := by simp [asksOf, hs]
        have hbids : bidsOf (o :: rest) = o :: bidsOf rest := by simp [bidsOf, hs2]
        obtain ⟨iA, iB, tA, tB⟩ := ih (bboStep s o) seenA (seenB ++ [o])
          (by rw [hask]; exact hA) (by rw [hbid]; exact bidInv_step seenB s.bid o hB)
        refine ⟨?_, ?_, ?_, ?_⟩
        · rw [hasks]
          exact iA
        · rw [hbids, show seenB ++ o :: bidsOf rest = (seenB ++ [o]) ++ bidsOf rest from by simp]
          exact iB
        · rw [hasks, tA, htA]
        · rw [hbids, sizeSum_cons, tB, htB]
          omega
      · have hstep : bboStep s o = s := by simp [bboStep, hs, hs2]
        have hasks : asksOf (o :: rest) = asksOf rest := by simp [asksOf, hs]
        have hbids : bidsOf (o :: rest) = bidsOf rest := by simp [bidsOf, hs2]
        rw [hstep, hasks, hbids]
        exact ih s seenA seenB hA hB

/-- C1: `Book.bbo` returns `(best_bid, best_ask)` where the best ask price
is the minimum price among resting ask-side orders and the best bid price
the maximum among bid-side orders; each level's size and count sum over
the resting orders at exactly that best price; each level's `total_size`
sums the sizes of its entire side; and a side with no resting orders
yields the level with absent price and zero size, count and total. -/
theorem bbo_spec (b : Book) :
    ((asksOf b.values = [] → (Book.bbo b).2 = PriceLevel.mk none 0 0 0) ∧
     (asksOf b.values ≠ [] → (Book.bbo b).2.price ≠ none) ∧
     (∀ m, (Book.bbo b).2.price = some m →
        (∃ o ∈ asksOf b.values, o.price = m) ∧
        (∀ o ∈ asksOf b.values, m ≤ o.price) ∧
        (Book.bbo b).2.size = sizeSum (atPrice (asksOf b.values) m) ∧
        (Book.bbo b).2.count = (atPrice (asksOf b.values) m).length) ∧
     (Book.bbo b).2.total_size = sizeSum (asksOf b.values)) ∧
    ((bidsOf b.values = [] → (Book.bbo b).1 = PriceLevel.mk none 0 0 0) ∧
     (bidsOf b.values ≠ [] → (Book.bbo b).1.price ≠ none) ∧
     (∀ m, (Book.bbo b).1.price = some m →
        (∃ o ∈ bidsOf b.values, o.price = m) ∧
        (∀ o ∈ bidsOf b.values, o.price ≤ m) ∧
        (Book.bbo b).1.size = sizeSum (atPrice (bidsOf b.values) m) ∧
        (Book.bbo b).1.count = (atPrice (bidsOf b.values) m).length) ∧
     (Book.bbo b).1.total_size = sizeSum (bidsOf b.values)) := by
  obtain ⟨iA, iB, tA, tB⟩ := bbo_foldl_inv b.values
    (BboState.mk (PriceLevel.mk none 0 0 0) (PriceLevel.mk none 0 0 0) 0 0) [] []
    askInv_nil bidInv_nil
  rw [List.nil_append] at iA iB
  have e2 : (Book.bbo b).2 = { (b.values.foldl bboStep (BboState.mk (PriceLevel.mk none 0 0 0) (PriceLevel.mk none 0 0 0) 0 0)).ask with total_size := (b.values.foldl bboStep (BboState.mk (PriceLevel.mk none 0 0 0) (PriceLevel.mk none 0 0 0) 0 0)).totalAsk } := rfl
  have e1 : (Book.bbo b).1 = { (b.values.foldl bboStep (BboState.mk (PriceLevel.mk none 0 0 0) (PriceLevel.mk none 0 0 0) 0 0)).bid with total_size := (b.values.foldl bboStep (BboState.mk (PriceLevel.mk none 0 0 0) (PriceLevel.mk none 0 0 0) 0 0)).totalBid } := rfl
  refine ⟨⟨?_, ?_, ?_, ?_⟩, ⟨?_, ?_, ?_, ?_⟩⟩
  · intro he
    rw [he] at iA
    cases hsp : (b.values.foldl bboStep
        (BboState.mk (PriceLevel.mk none 0 0 0) (PriceLevel.mk none 0 0 0) 0 0)).ask.price with
    | none =>
      obtain ⟨hlvl, _⟩ := iA.1 hsp
      rw [e2, hlvl, tA, he]
      simp [sizeSum]
    | some m =>
      obtain ⟨⟨o, ho, _⟩, _⟩ := iA.2 m hsp
      cases ho
  · intro hne hc
    obtain ⟨hlvl, hseen⟩ := iA.1 hc
    exact hne hseen
  · intro m hm
    obtain ⟨h1, h2, h3, h4, _⟩ := iA.2 m hm
    exact ⟨h1, h2, h3, h4⟩
  · rw [show (Book.bbo b).2.total_size = (b.values.foldl bboStep (BboState.mk (PriceLevel.mk none 0 0 0) (PriceLevel.mk none 0 0 0) 0 0)).totalAsk from rfl, tA]
    simp
  · intro he
    rw [he] at iB
    cases hsp : (b.values.foldl bboStep
        (BboState.mk (PriceLevel.mk none 0 0 0) (PriceLevel.mk none 0 0 0) 0 0)).bid.price with
    | none =>
      obtain ⟨hlvl, _⟩ := iB.1 hsp
      rw [e1, hlvl, tB, he]
      simp [sizeSum]
    | some m =>
      obtain ⟨⟨o, ho, _⟩, _⟩ := iB.2 m hsp
      cases ho
  · intro hne hc
    obtain ⟨hlvl, hseen⟩ := iB.1 hc
    exact hne hseen
  · intro m hm
    obtain ⟨h1, h2, h3, h4, _⟩ := iB.2 m hm
    exact ⟨h1, h2, h3, h4⟩
  · rw [show (Book.bbo b).1.total_size = (b.values.foldl bboStep (BboState.mk (PriceLevel.mk none 0 0 0) (PriceLevel.mk none 0 0 0) 0 0)).totalBid from rfl, tB]
    simp

/-! ## Theorems: feature columns (`build_features`) -/

/-- C4 counterexample: at lookback 60 the loop of `build_features`
appends 40 derived statistic columns, not 36 — the tenth statistic per
base column is the rolling correlation, e.g. `log_return_corr_60`. -/
theorem build_features_nine_cex :
    (derivedStatCols 60).length = 40 ∧ (derivedStatCols 60).length ≠ 36 ∧
    "log_return_corr_60" ∈ derivedStatCols 60 := by
  refine ⟨rfl, (by decide), (by decide)⟩

/-- C4 (amended): `build_features` first adds the four base derived
columns, then for each appends exactly ten rolling statistic columns over
the lookback window — mean, std, sum, max, min, 25th and 75th
percentile, skew, kurtosis, and corr — for exactly 40 derived statistic
columns in total, each suffixed with the statistic and the window. -/
theorem build_features_cols_spec (cols : List String) (lookback : ℕ) :
    build_features_cols cols lookback = (cols ++ feature_cols) ++ derivedStatCols lookback ∧
    (derivedStatCols lookback).length = 40 ∧
    feature_cols.length = 4 ∧ rolling_stats.length = 10 ∧ "corr" ∈ rolling_stats ∧
    (∀ name, name ∈ derivedStatCols lookback ↔
      ∃ c ∈ feature_cols, ∃ s ∈ rolling_stats,
        name = c ++ "_" ++ s ++ "_" ++ toString lookback) := by
  refine ⟨rfl, rfl, rfl, rfl, (by decide), ?_⟩
  intro name
  simp only [derivedStatCols, statCols, List.mem_flatMap, List.mem_map]
  constructor
  · rintro ⟨c, hc, s, hs, rfl⟩
    exact ⟨c, hc, s, hs, rfl⟩
  · rintro ⟨c, hc, s, hs, rfl⟩
    exact ⟨c, hc, s, hs, rfl⟩

/-! ## Theorems: `get_data` arity defect -/

/-- C8: `get_data` passes four positional arguments to the three-parameter
`prepare_symbol`, so every call raises a `TypeError` once the parquet
load succeeded and before any filtering runs: the result is the error,
never a filtered frame. -/
theorem get_data_arity_spec (parquet : List MboRow) (symbol start_date end_date : String) :
    get_data parquet symbol start_date end_date = Except.error PyError.typeError ∧
    get_data_args ≠ prepare_symbol_params ∧
    ∀ out, get_data parquet symbol start_date end_date ≠ Except.ok out := by
  have he : get_data parquet symbol start_date end_date = Except.error PyError.typeError := by
    unfold get_data
    rw [if_neg (by decide)]
  refine ⟨he, (by decide), fun out hc => ?_⟩
  rw [he] at hc
  cases hc

/-! ## Theorems: `prep_for_prediction` target -/

theorem diffAux_length (l : List ℚ) : ∀ prev : ℚ, (diffAux prev l).length = l.length := by
  induction l with
  | nil => intro prev; rfl
  | cons y rest ih =>
    intro prev
    simp [diffAux, ih y]

theorem diff1_length (mid : List ℚ) : (diff1 mid).length = mid.length := by
  cases mid with
  | nil => rfl
  | cons x rest => simp [diff1, diffAux_length rest x]

theorem shiftNeg_length (n : ℕ) (l : List (Option ℚ)) : (shiftNeg n l).length = l.length := by
  simp [shiftNeg]
  omega

theorem diffAux_get? (l : List ℚ) : ∀ (prev : ℚ) (j : ℕ), j < l.length →
    (diffAux prev l).get? j = some (some (l.getD j 0 - (prev :: l).getD j 0)) := by
  induction l with
  | nil =>
    intro prev j hj
    simp at hj
  | cons y rest ih =>
    intro prev j hj
    cases j with
    | zero => simp [diffAux]
    | succ k =>
      have hk : k < rest.length := by simpa using hj
      simp only [diffAux, List.get?_cons_succ]
      rw [ih y k hk]
      simp

theorem diff1_get? (mid : List ℚ) (j : ℕ) (h1 : 1 ≤ j) (h2 : j < mid.length) :
    (diff1 mid).get? j = some (some (mid.getD j 0 - mid.getD (j - 1) 0)) := by
  cases mid with
  | nil => simp at h2
  | cons x rest =>
    cases j with
    | zero => omega
    | succ k =>
      have hk : k < rest.length := by simpa using h2
      simp only [diff1, List.get?_cons_succ]
      rw [diffAux_get? rest x k hk]
      simp

theorem shiftNeg_get? (n : ℕ) (l : List (Option ℚ)) (i : ℕ) (h : i + n < l.length) :
    (shiftNeg n l).get? i = l.get? (n + i) := by
  unfold shiftNeg
  rw [List.get?_append (by simp; omega), List.get?_drop]

/-- C5 (amended): for every `offset ≥ 1`, the `target` column
`prep_for_prediction` produces is, at each kept row `i`, the one-row
backward mid-price difference evaluated `offset` rows ahead
(`mid[i+offset] - mid[i+offset-1]`, not the forward difference
`mid[i+offset] - mid[i]`); the raw `ts_event` column is dropped and the
final `offset` rows are truncated. -/
theorem prep_target_spec (mid : List ℚ) (offset : ℕ) (hoff : 1 ≤ offset) :
    (prep_target mid offset).length = mid.length - offset ∧
    (∀ i, i < mid.length - offset →
      (prep_target mid offset).get? i =
        some (some (mid.getD (i + offset) 0 - mid.getD (i + offset - 1) 0))) ∧
    "ts_event" ∉ prep_for_prediction_cols mergedCols ∧
    "target" ∈ prep_for_prediction_cols mergedCols := by
  have hslen : (shiftNeg offset (diff1 mid)).length = mid.length := by
    rw [shiftNeg_length, diff1_length]
  refine ⟨?_, ?_, (by decide), (by decide)⟩
  · unfold prep_target sliceDropLast
    rw [if_neg (by omega)]
    simp [hslen]
  · intro i hi
    unfold prep_target sliceDropLast
    rw [if_neg (by omega)]
    rw [List.get?_take (by rw [hslen]; omega)]
    rw [shiftNeg_get? offset (diff1 mid) i (by rw [diff1_length]; omega)]
    rw [diff1_get? mid (offset + i) (by omega) (by omega)]
    rw [show offset + i = i + offset from by omega]

/-- C5 counterexample: with mid prices `[0, 10, 100]` and offset 2, the
code's target at the first kept row is `90 = mid[2] - mid[1]`, while the
claimed forward difference `mid[2] - mid[0]` is `100`. -/
theorem prep_target_cex :
    prep_target [0, 10, 100] 2 = [some 90] ∧
    (90 : ℚ) = [(0 : ℚ), 10, 100].getD 2 0 - [(0 : ℚ), 10, 100].getD 1 0 ∧
    (90 : ℚ) ≠ [(0 : ℚ), 10, 100].getD 2 0 - [(0 : ℚ), 10, 100].getD 0 0 := by
  refine ⟨?_, ?_, ?_⟩
  · norm_num [prep_target, diff1, diffAux, shiftNeg, sliceDropLast]
  · norm_num [List.getD]
  · norm_num [List.getD]

/-- Closed witness for `prep_target_spec` at mid prices `[0, 10, 100]`
and offset 2. -/
theorem prep_target_spec_witness :
    1 ≤ 2 ∧
    ((prep_target [0, 10, 100] 2).length = [(0 : ℚ), 10, 100].length - 2 ∧
      (∀ i, i < [(0 : ℚ), 10, 100].length - 2 →
        (prep_target [0, 10, 100] 2).get? i =
          some (some ([(0 : ℚ), 10, 100].getD (i + 2) 0 - [(0 : ℚ), 10, 100].getD (i + 2 - 1) 0))) ∧
      "ts_event" ∉ prep_for_prediction_cols mergedCols ∧
      "target" ∈ prep_for_prediction_cols mergedCols) :=
  ⟨(by omega), prep_target_spec [0, 10, 100] 2 (by omega)⟩

/-! ## Theorems: `merge_bbo` -/

theorem mem_uniqueKeys_aux (l : List ℤ) : ∀ (acc : List ℤ) (x : ℤ),
    x ∈ l.foldl (fun ks t => if t ∈ ks then ks else ks ++ [t]) acc ↔ x ∈ acc ∨ x ∈ l := by
  induction l with
  | nil =>
    intro acc x
    simp
  | cons t rest ih =>
    intro acc x
    rw [List.foldl_cons, ih]
    by_cases ht : t ∈ acc
    · rw [if_pos ht]
      constructor
      · rintro (h | h)
        · exact Or.inl h
        · exact Or.inr (List.mem_cons_of_mem t h)
      · rintro (h | h)
        · exact Or.inl h
        · rcases List.mem_cons.1 h with rfl | h
          · exact Or.inl ht
          · exact Or.inr h
    · rw [if_neg ht]
      constructor
      · rintro (h | h)
        · rcases List.mem_append.1 h with h | h
          · exact Or.inl h
          · have : x = t := by simpa using h
            exact Or.inr (this ▸ List.mem_cons_self t rest)
        · exact Or.inr (List.mem_cons_of_mem t h)
      · rintro (h | h)
        · exact Or.inl (List.mem_append_left _ h)
        · rcases List.mem_cons.1 h with rfl | h
          · exact Or.inl (List.mem_append_right _ (by simp))
          · exact Or.inr h

theorem mem_uniqueKeys (l : List ℤ) (x : ℤ) : x ∈ uniqueKeys l ↔ x ∈ l := by
  rw [uniqueKeys, mem_uniqueKeys_aux]
  simp

theorem groupAgg_mem (unit : String) (snaps : List Snap) (r : AggRow)
    (hr : r ∈ groupAgg unit snaps) :
    snaps.filter (fun s => bucketTs unit s.ts == r.ts) ≠ [] ∧
    r.px = ((snaps.filter (fun s => bucketTs unit s.ts == r.ts)).map
        (fun s => (s.price : ℚ) / (FIXED_PRICE_SCALE : ℚ))).sum /
      ((snaps.filter (fun s => bucketTs unit s.ts == r.ts)).length : ℚ) ∧
    r.ct = ((snaps.filter (fun s => bucketTs unit s.ts == r.ts)).map (fun s => s.size)).sum ∧
    r.total = ((snaps.filter (fun s => bucketTs unit s.ts == r.ts)).map
        (fun s => s.total)).getLastD 0 := by
  unfold groupAgg at hr
  rw [List.mem_map] at hr
  obtain ⟨t, ht, rfl⟩ := hr
  rw [mem_uniqueKeys, List.mem_map] at ht
  obtain ⟨s, hs, hts⟩ := ht
  refine ⟨?_, rfl, rfl, rfl⟩
  intro hnil
  have hmem : s ∈ snaps.filter (fun s2 => bucketTs unit s2.ts == t) :=
    List.mem_filter.mpr ⟨hs, by simp [hts]⟩
  rw [hnil] at hmem
  cases hmem

/-- C6 counterexample: for the claim's two best-bid snapshots (raw
fixed-point prices 100 and 102, sizes 5 and 5, one second bucket), the
merged row's bid price is the mean of the *rescaled* prices,
`101 / 1000000000`, not `101`; the summed size `10` does hold. -/
theorem merge_bbo_cex :
    (merge_bbo exBids exAsks "s").map (fun r => r.bid_px) = [101 / 1000000000] ∧
    ((101 : ℚ) / 1000000000) ≠ 101 ∧
    (merge_bbo exBids exAsks "s").map (fun r => r.bid_ct) = [10] := by
  refine ⟨?_, (by norm_num), (by decide)⟩
  have hr : (merge_bbo exBids exAsks "s").map (fun r => r.bid_px) =
      [(100 / 1000000000 + (102 / 1000000000 + 0)) / 2] := rfl
  rw [hr]
  norm_num

/-- C6 (amended): `merge_bbo` divides the integer fixed-point prices by
`FIXED_PRICE_SCALE`, buckets timestamps at millisecond or second
granularity, aggregates each bucket as the mean rescaled price, the
summed size and the last-observed total depth, and inner-joins the two
sides on the bucketed timestamp; the claim's example (bid prices 100 and
102, sizes 5 and 5 in one second bucket) yields a single row with summed
size 10 and averaged rescaled price `101 / FIXED_PRICE_SCALE`. -/
theorem merge_bbo_spec :
    (∀ (bids asks : List Snap) (unit : String) (row : MergedRow),
      row ∈ merge_bbo bids asks unit →
      (bids.filter (fun s => bucketTs unit s.ts == row.ts) ≠ [] ∧
       row.bid_px = ((bids.filter (fun s => bucketTs unit s.ts == row.ts)).map
           (fun s => (s.price : ℚ) / (FIXED_PRICE_SCALE : ℚ))).sum /
         ((bids.filter (fun s => bucketTs unit s.ts == row.ts)).length : ℚ) ∧
       row.bid_ct = ((bids.filter (fun s => bucketTs unit s.ts == row.ts)).map
           (fun s => s.size)).sum ∧
       row.bid_total = ((bids.filter (fun s => bucketTs unit s.ts == row.ts)).map
           (fun s => s.total)).getLastD 0) ∧
      (asks.filter (fun s => bucketTs unit s.ts == row.ts) ≠ [] ∧
       row.ask_px = ((asks.filter (fun s => bucketTs unit s.ts == row.ts)).map
           (fun s => (s.price : ℚ) / (FIXED_PRICE_SCALE : ℚ))).sum /
         ((asks.filter (fun s => bucketTs unit s.ts == row.ts)).length : ℚ) ∧
       row.ask_ct = ((asks.filter (fun s => bucketTs unit s.ts == row.ts)).map
           (fun s => s.size)).sum ∧
       row.ask_total = ((asks.filter (fun s => bucketTs unit s.ts == row.ts)).map
           (fun s => s.total)).getLastD 0)) ∧
    ((merge_bbo exBids exAsks "s").length = 1 ∧
     (merge_bbo exBids exAsks "s").map (fun r => r.ts) = [0] ∧
     (merge_bbo exBids exAsks "s").map (fun r => r.bid_px) = [101 / 1000000000] ∧
     (merge_bbo exBids exAsks "s").map (fun r => r.bid_ct) = [10]) := by
  constructor
  · intro bids asks unit row hrow
    unfold merge_bbo at hrow
    rw [List.mem_filterMap] at hrow
    obtain ⟨rb, hrb, hmap⟩ := hrow
    rw [Option.map_eq_some'] at hmap
    obtain ⟨ra, hfind, rfl⟩ := hmap
    have hts : ra.ts = rb.ts := by
      have := List.find?_some hfind
      simpa using this
    obtain ⟨hne, hpx, hct, htot⟩ := groupAgg_mem unit bids rb hrb
    obtain ⟨hne2, hpx2, hct2, htot2⟩ :=
      groupAgg_mem unit asks ra (List.mem_of_find?_eq_some hfind)
    rw [hts] at hne2 hpx2 hct2 htot2
    exact ⟨⟨hne, hpx, hct, htot⟩, ⟨hne2, hpx2, hct2, htot2⟩⟩
  · refine ⟨(by decide), (by decide), ?_, (by decide)⟩
    have hr : (merge_bbo exBids exAsks "s").map (fun r => r.bid_px) =
        [(100 / 1000000000 + (102 / 1000000000 + 0)) / 2] := rfl
    rw [hr]
    norm_num

/-! ## Theorems: `distance_correlation` -/

theorem distMatrix_symm {n : ℕ} (x : Fin n → ℝ) (i j : Fin n) :
    distMatrix x i j = distMatrix x j i := by
  simp [distMatrix, abs_sub_comm]

theorem distMatrix_diag {n : ℕ} (x : Fin n → ℝ) (i : Fin n) : distMatrix x i i = 0 := by
  simp [distMatrix]

theorem colMean_eq_rowMean {n : ℕ} (x : Fin n → ℝ) (j : Fin n) :
    colMean (distMatrix x) j = rowMean (distMatrix x) j := by
  unfold colMean rowMean
  congr 1
  exact Finset.sum_congr rfl (fun i _ => distMatrix_symm x i j)

theorem centered_ne_zero {n : ℕ} (x : Fin n → ℝ) (h : ∃ i j, x i ≠ x j) :
    ∃ i j, centered (distMatrix x) i j ≠ 0 := by
  by_contra hc
  push_neg at hc
  obtain ⟨i0, j0, hne⟩ := h
  have key : ∀ i j, distMatrix x i j =
      colMean (distMatrix x) j + rowMean (distMatrix x) i - grandMean (distMatrix x) := by
    intro i j
    have hz := hc i j
    unfold centered at hz
    linarith
  have h2r : ∀ i, 2 * rowMean (distMatrix x) i = grandMean (distMatrix x) := by
    intro i
    have hk := key i i
    rw [distMatrix_diag, colMean_eq_rowMean] at hk
    linarith
  have hzero : ∀ i j, distMatrix x i j = 0 := by
    intro i j
    have h1 := key i j
    rw [colMean_eq_rowMean] at h1
    have h2 := h2r i
    have h3 := h2r j
    linarith
  have : x i0 = x j0 := by
    have hz := hzero i0 j0
    unfold distMatrix at hz
    rw [abs_eq_zero, sub_eq_zero] at hz
    exact hz
  exact hne this

theorem dCov_self_pos {n : ℕ} (x : Fin n → ℝ) (h : ∃ i j, x i ≠ x j) :
    0 < dCov (centered (distMatrix x)) (centered (distMatrix x)) := by
  obtain ⟨i0, j0, hne0⟩ := centered_ne_zero x h
  have hn : (0 : ℝ) < n := by
    have : 0 < n := i0.pos
    exact_mod_cast this
  unfold dCov
  apply div_pos
  · apply Finset.sum_pos' (fun i _ => Finset.sum_nonneg (fun j _ => mul_self_nonneg _))
    refine ⟨i0, Finset.mem_univ i0, ?_⟩
    apply Finset.sum_pos' (fun j _ => mul_self_nonneg _)
    exact ⟨j0, Finset.mem_univ j0, mul_self_pos.mpr hne0⟩
  · exact mul_pos hn hn

/-- C9: for every non-constant real vector `x`,
`distance_correlation x x = 1` (the floating-point computation is
embedded over the reals, where the tolerance is exact equality). -/
theorem distance_correlation_self {n : ℕ} (x : Fin n → ℝ) (h : ∃ i j, x i ≠ x j) :
    distance_correlation x x = 1 := by
  have hd := dCov_self_pos x h
  unfold distance_correlation
  rw [Real.sqrt_mul_self (Real.sqrt_nonneg _)]
  exact div_self (ne_of_gt (Real.sqrt_pos.mpr hd))

/-- Closed witness for `distance_correlation_self` at the concrete
non-constant vector `xWit = (0, 1)`. -/
theorem distance_correlation_self_witness :
    (∃ i j, xWit i ≠ xWit j) ∧ distance_correlation xWit xWit = 1 := by
  have hne : xWit 0 ≠ xWit 1 := by
    unfold xWit
    norm_num
  exact ⟨⟨0, 1, hne⟩, distance_correlation_self xWit ⟨0, 1, hne⟩⟩
